import Mathlib

/-!
Verification of the persistent-keeper core of the keepass-chrome-extension
repository against its natural-language specification.

The TypeScript sources are shallowly embedded: byte buffers (`ArrayBuffer` /
`Uint8Array`) become `List Nat` with every element below 256, strings become
`String` or `List Char`, the IndexedDB object stores become explicit record
states threaded through the functions, and the failure of an individual
browser-storage call (which the source observes as a thrown exception caught
by a `try`/`catch`) is modelled by a boolean oracle in a `World` record, one
flag per call site.
-/

namespace KeePassExt

/- ### Base64 codec (`src/lib/storage.ts` 19-35, `src/lib/kdbx.ts` 754-770)

`arrayBufferToBase64` builds the `btoa` input by mapping every byte to the
character with that code point and then base64-encodes it; `base64ToArrayBuffer`
applies `atob` and reads the code points back.  Both are embedded directly at
the byte level: three input bytes become four alphabet characters, a final
group of one or two bytes is padded with `'='`. -/

/-- The base64 alphabet map used by `btoa`: sextet value to character. -/
def b64Char (n : Nat) : Char :=
  if n < 26 then Char.ofNat (65 + n)
  else if n < 52 then Char.ofNat (97 + (n - 26))
  else if n < 62 then Char.ofNat (48 + (n - 52))
  else if n = 62 then '+'
  else '/'

/-- The inverse alphabet map used by `atob`: character to sextet value. -/
def b64Index (c : Char) : Nat :=
  if 65 ≤ c.toNat ∧ c.toNat ≤ 90 then c.toNat - 65
  else if 97 ≤ c.toNat ∧ c.toNat ≤ 122 then 26 + (c.toNat - 97)
  else if 48 ≤ c.toNat ∧ c.toNat ≤ 57 then 52 + (c.toNat - 48)
  else if c = '+' then 62
  else 63

/-- `arrayBufferToBase64` (storage.ts 19-26 and kdbx.ts 754-761): encode the
byte list as base64 text, `'='`-padded to a multiple of four characters. -/
def arrayBufferToBase64 : List Nat → List Char
  | [] => []
  | [b0] => [b64Char (b0 / 4), b64Char (b0 % 4 * 16), '=', '=']
  | [b0, b1] =>
      [b64Char (b0 / 4), b64Char (b0 % 4 * 16 + b1 / 16), b64Char (b1 % 16 * 4), '=']
  | b0 :: b1 :: b2 :: rest =>
      b64Char (b0 / 4) :: b64Char (b0 % 4 * 16 + b1 / 16) ::
      b64Char (b1 % 16 * 4 + b2 / 64) :: b64Char (b2 % 64) ::
      arrayBufferToBase64 rest

/-- `base64ToArrayBuffer` (storage.ts 28-35 and kdbx.ts 763-770): decode base64
text back into the byte list, honouring `'='` padding. -/
def base64ToArrayBuffer : List Char → List Nat
  | c0 :: c1 :: c2 :: c3 :: rest =>
      if c2 = '=' then
        [b64Index c0 * 4 + b64Index c1 / 16]
      else if c3 = '=' then
        [b64Index c0 * 4 + b64Index c1 / 16,
         b64Index c1 % 16 * 16 + b64Index c2 / 4]
      else
        (b64Index c0 * 4 + b64Index c1 / 16) ::
        (b64Index c1 % 16 * 16 + b64Index c2 / 4) ::
        (b64Index c2 % 4 * 64 + b64Index c3) ::
        base64ToArrayBuffer rest
  | _ => []

/-- Decoding inverts encoding on every single sextet value. -/
theorem b64Index_b64Char : ∀ n, n < 64 → b64Index (b64Char n) = n := by decide

/-- No alphabet character is the padding character. -/
theorem b64Char_ne_eq : ∀ n, n < 64 → b64Char n ≠ '=' := by decide

/-- **C9.** For every byte buffer `b`, `base64ToArrayBuffer (arrayBufferToBase64 b)`
is byte-for-byte equal to `b`: a database blob written to the primary store as
base64 text always decodes back to the original blob. -/
theorem base64_roundtrip (l : List Nat) (h : ∀ b ∈ l, b < 256) :
    base64ToArrayBuffer (arrayBufferToBase64 l) = l := by
  induction l using arrayBufferToBase64.induct with
  | case1 =>
      simp [arrayBufferToBase64, base64ToArrayBuffer]
  | case2 b0 =>
      have hb0 : b0 < 256 := h b0 (by simp)
      have h1 : b0 / 4 < 64 := by omega
      have h2 : b0 % 4 * 16 < 64 := by omega
      simp only [arrayBufferToBase64, base64ToArrayBuffer, if_pos rfl, if_true,
        b64Index_b64Char _ h1, b64Index_b64Char _ h2, List.cons.injEq, and_true]
      omega
  | case3 b0 b1 =>
      have hb0 : b0 < 256 := h b0 (by simp)
      have hb1 : b1 < 256 := h b1 (by simp)
      have h1 : b0 / 4 < 64 := by omega
      have h2 : b0 % 4 * 16 + b1 / 16 < 64 := by omega
      have h3 : b1 % 16 * 4 < 64 := by omega
      simp only [arrayBufferToBase64, base64ToArrayBuffer,
        if_neg (b64Char_ne_eq _ h3), if_pos rfl, if_true,
        b64Index_b64Char _ h1, b64Index_b64Char _ h2, b64Index_b64Char _ h3,
        List.cons.injEq, and_true]
      omega
  | case4 b0 b1 b2 rest ih =>
      have hb0 : b0 < 256 := h b0 (by simp)
      have hb1 : b1 < 256 := h b1 (by simp)
      have hb2 : b2 < 256 := h b2 (by simp)
      have h1 : b0 / 4 < 64 := by omega
      have h2 : b0 % 4 * 16 + b1 / 16 < 64 := by omega
      have h3 : b1 % 16 * 4 + b2 / 64 < 64 := by omega
      have h4 : b2 % 64 < 64 := by omega
      have hrest : ∀ b ∈ rest, b < 256 := by
        intro b hb; exact h b (by simp [hb])
      simp only [arrayBufferToBase64, base64ToArrayBuffer,
        if_neg (b64Char_ne_eq _ h3), if_neg (b64Char_ne_eq _ h4),
        b64Index_b64Char _ h1, b64Index_b64Char _ h2, b64Index_b64Char _ h3,
        b64Index_b64Char _ h4, ih hrest, List.cons.injEq, and_true]
      omega

/-- Witness for C9 at the concrete three-plus-one byte buffer `[75, 100, 98, 255]`. -/
theorem base64_roundtrip_witness :
    base64ToArrayBuffer (arrayBufferToBase64 [75, 100, 98, 255]) = [75, 100, 98, 255] :=
  base64_roundtrip [75, 100, 98, 255] (by decide)

/- ### Vault model (`src/lib/kdbx.ts` 1-264)

The kdbxweb tree of groups and entries.  UUIDs are modelled as `Nat` (the
source only ever compares them for equality and turns them into strings).
Entry times are irrelevant to the claims and are omitted; protected values are
exposed as the strings `kdbxEntryToData` reads out of them. -/

/-- A kdbx entry: the fields the wrapper reads and writes. -/
structure KdbxEntry where
  uuid : Nat
  title : String
  username : String
  password : String
  url : String
  notes : String
  tags : List String
deriving DecidableEq

/-- A kdbx group: uuid, display name, icon, its own entries and subgroups. -/
inductive KdbxGroup where
  | mk (uuid : Nat) (name : String) (icon : Nat)
       (entries : List KdbxEntry) (groups : List KdbxGroup)

/-- Group uuid accessor. -/
def KdbxGroup.uuid : KdbxGroup → Nat
  | .mk u _ _ _ _ => u

/-- Direct (non-recursive) entry list of a group. -/
def KdbxGroup.entries : KdbxGroup → List KdbxEntry
  | .mk _ _ _ es _ => es

/-- Direct subgroup list of a group. -/
def KdbxGroup.subgroups : KdbxGroup → List KdbxGroup
  | .mk _ _ _ _ gs => gs

/-- The open database: default (root) group plus the recycle-bin uuid from
`db.meta.recycleBinUuid` (`none` when the meta has no recycle bin). -/
structure Kdbx where
  root : KdbxGroup
  recycleBinUuid : Option Nat

mutual

/-- `group.allEntries()`: every entry in the subtree, depth first, each paired
with the uuid of the group that directly contains it (its `parentGroup`). -/
def KdbxGroup.allEntries : KdbxGroup → List (KdbxEntry × Nat)
  | .mk u _ _ es gs => es.map (fun e => (e, u)) ++ allEntriesOfGroups gs

/-- `allEntries` over a list of sibling subtrees. -/
def allEntriesOfGroups : List KdbxGroup → List (KdbxEntry × Nat)
  | [] => []
  | g :: gs => g.allEntries ++ allEntriesOfGroups gs

end

mutual

/-- `db.getGroup(id)`: first group in the tree with the given uuid. -/
def KdbxGroup.findGroup : KdbxGroup → Nat → Option KdbxGroup
  | .mk u n i es gs, target =>
      if u = target then some (.mk u n i es gs) else findGroupInList gs target

/-- `findGroup` over a list of sibling subtrees, first hit wins. -/
def findGroupInList : List KdbxGroup → Nat → Option KdbxGroup
  | [], _ => none
  | g :: gs, target =>
      match g.findGroup target with
      | some found => some found
      | none => findGroupInList gs target

end

mutual

/-- Rebuild the tree with `entry` appended to the entry list of the first group
whose uuid is `target` (the effect of `db.createEntry(targetGroup)`). -/
def KdbxGroup.insertEntry : KdbxGroup → Nat → KdbxEntry → KdbxGroup
  | .mk u n i es gs, target, entry =>
      if u = target then .mk u n i (es ++ [entry]) gs
      else .mk u n i es (insertEntryInList gs target entry)

/-- `insertEntry` over a list of sibling subtrees. -/
def insertEntryInList : List KdbxGroup → Nat → KdbxEntry → List KdbxGroup
  | [], _, _ => []
  | g :: gs, target, entry =>
      if (g.findGroup target).isSome then g.insertEntry target entry :: gs
      else g :: insertEntryInList gs target entry

end

/-- The `EntryData` view (`src/lib/types.ts` 2-13) the wrapper hands to the UI.
`groupId` is the uuid of the entry's parent group. -/
structure EntryData where
  id : Nat
  title : String
  username : String
  password : String
  url : String
  notes : String
  tags : List String
  groupId : Nat
deriving DecidableEq

/-- `kdbxEntryToData` (kdbx.ts 115-136), with the containing group supplied by
the traversal (the source reads it from `entry.parentGroup`). -/
def kdbxEntryToData (e : KdbxEntry) (parentUuid : Nat) : EntryData :=
  { id := e.uuid, title := e.title, username := e.username, password := e.password,
    url := e.url, notes := e.notes, tags := e.tags, groupId := parentUuid }

/-- The recycle-bin skip test of `getEntries` (kdbx.ts 145-150): the entry's
direct parent group is the recycle bin. -/
def binSkip (db : Kdbx) (parentUuid : Nat) : Bool :=
  match db.recycleBinUuid with
  | some b => parentUuid == b
  | none => false

/-- Case-insensitive substring test: the `String.prototype.includes` call on a
lowercased field with the lowercased query. -/
def includesLower (s q : String) : Bool :=
  decide (q.data <:+: s.toLower.data)

/-- The search filter body of `getEntries` (kdbx.ts 158-167): `q` is already
lowercased, matched against title, username, url, notes and every tag. -/
def matchesSearch (d : EntryData) (q : String) : Bool :=
  includesLower d.title q || includesLower d.username q || includesLower d.url q ||
  includesLower d.notes q || d.tags.any (fun t => includesLower t q)

/-- `getEntries` (kdbx.ts 139-173): walk `db.getDefaultGroup().allEntries()`,
skip entries whose `parentGroup` is the recycle bin, then apply the optional
group filter and the optional search filter.  `groupId = none` models the
absent/empty group argument, `search = none` the absent/empty query. -/
def getEntries (db : Kdbx) (groupId : Option Nat) (search : Option String) :
    List EntryData :=
  db.root.allEntries.filterMap (fun p =>
    if binSkip db p.2 then none
    else
      let data := kdbxEntryToData p.1 p.2
      if (match groupId with
          | some g => data.groupId != g
          | none => false) then none
      else if (match search with
          | some q => !matchesSearch data q.toLower
          | none => false) then none
      else some data)

/-- `createEntry` (kdbx.ts 203-227): resolve the target group (the default/root
group when `data.groupId` is empty or matches no group), append a fresh entry
and return its `EntryData` view together with the mutated database.
`input.groupId = none` models the empty `groupId` string; `freshUuid` stands
for the uuid kdbxweb generates for the new entry. -/
structure EntryInput where
  title : String
  username : String
  password : String
  url : String
  notes : String
  tags : List String
  groupId : Option Nat

def createEntry (db : Kdbx) (data : EntryInput) (freshUuid : Nat) :
    EntryData × Kdbx :=
  let targetGroup :=
    match data.groupId with
    | some g =>
        match db.root.findGroup g with
        | some found => found
        | none => db.root
    | none => db.root
  let entry : KdbxEntry :=
    { uuid := freshUuid, title := data.title, username := data.username,
      password := data.password, url := data.url, notes := data.notes,
      tags := data.tags }
  (kdbxEntryToData entry targetGroup.uuid,
   { db with root := db.root.insertEntry targetGroup.uuid entry })

/-- An entry id lies in the recycle-bin subtree: the database designates a
recycle bin, that group exists in the tree, and the id is the uuid of an entry
anywhere below it (its ancestor chain crosses the recycle bin). -/
def inRecycleBinSubtree (db : Kdbx) (entryId : Nat) : Bool :=
  match db.recycleBinUuid with
  | none => false
  | some b =>
      match db.root.findGroup b with
      | none => false
      | some bin => bin.allEntries.any (fun p => p.1.uuid == entryId)

/-- A vault whose recycle bin (uuid 1) holds a nested subgroup (uuid 2) that
contains one entry (uuid 100). -/
def nestedBinVault : Kdbx :=
  { root := .mk 0 "Root" 48 []
      [.mk 1 "Recycle Bin" 43 []
        [.mk 2 "Nested" 48
          [{ uuid := 100, title := "buried", username := "u", password := "p",
             url := "", notes := "", tags := [] }] []]],
    recycleBinUuid := some 1 }

/-- **C1, counterexample.** The unfiltered enumeration of `nestedBinVault`
contains an entry that lies in the recycle-bin subtree (uuid 100 lives in a
subgroup of the bin), so the enumeration does not exclude the whole
recycle-bin subtree. -/
theorem getEntries_nested_bin_entry_listed :
    (getEntries nestedBinVault none none).any
      (fun d => inRecycleBinSubtree nestedBinVault d.id) = true := by decide

/-- **C1, amended.** The unfiltered enumeration excludes exactly the entries
whose direct parent group is the recycle bin: it equals the full traversal of
the tree with only the direct-child-of-bin records dropped.  Entries in nested
subgroups of the recycle bin are therefore not excluded. -/
theorem getEntries_skips_only_direct_bin_children (db : Kdbx) :
    getEntries db none none =
      db.root.allEntries.filterMap (fun p =>
        if binSkip db p.2 then none else some (kdbxEntryToData p.1 p.2)) := rfl

/-- Appending an entry at a group's own uuid appends to its direct entry list. -/
theorem KdbxGroup.insertEntry_self (gr : KdbxGroup) (e : KdbxEntry) :
    (gr.insertEntry gr.uuid e).entries = gr.entries ++ [e] := by
  cases gr with
  | mk u n i es gs =>
      simp [KdbxGroup.insertEntry, KdbxGroup.uuid, KdbxGroup.entries]

/-- A vault for the C10 witness: root uuid 0 with a single subgroup uuid 7;
uuid 42 matches no group. -/
def plainVault : Kdbx :=
  { root := .mk 0 "Root" 48 [] [.mk 7 "Work" 48 [] []], recycleBinUuid := none }

/-- Entry input for the C10 witness, aimed at the nonexistent group uuid 42. -/
def strayInput : EntryInput :=
  { title := "Gmail", username := "u", password := "p", url := "gmail.com",
    notes := "n", tags := ["mail"], groupId := some 42 }

/-- **C10.** When `data.groupId` is non-empty but matches no group of the
vault, `createEntry` neither errors nor reports not-found: the entry is
created in the default (root) group, carries the fresh uuid and exactly the
provided field values, and is appended to the root group's entry list. -/
theorem createEntry_unknown_group_defaults_to_root (db : Kdbx) (data : EntryInput)
    (u g : Nat) (hg : data.groupId = some g) (hmiss : db.root.findGroup g = none) :
    ((createEntry db data u).1.groupId = db.root.uuid ∧
     (createEntry db data u).1.id = u ∧
     (createEntry db data u).1.title = data.title ∧
     (createEntry db data u).1.username = data.username ∧
     (createEntry db data u).1.password = data.password ∧
     (createEntry db data u).1.url = data.url ∧
     (createEntry db data u).1.notes = data.notes ∧
     (createEntry db data u).1.tags = data.tags) ∧
    (createEntry db data u).2.root.entries =
      db.root.entries ++
        [{ uuid := u, title := data.title, username := data.username,
           password := data.password, url := data.url, notes := data.notes,
           tags := data.tags }] := by
  constructor
  · simp [createEntry, hg, hmiss, kdbxEntryToData]
  · simp only [createEntry, hg, hmiss]
    exact KdbxGroup.insertEntry_self db.root _

/-- Witness for C10: the concrete vault `plainVault` and input `strayInput`
whose `groupId` (42) matches no group; the entry lands in the root group. -/
theorem createEntry_unknown_group_witness :
    strayInput.groupId = some 42 ∧ plainVault.root.findGroup 42 = none ∧
    (createEntry plainVault strayInput 9).1.groupId = plainVault.root.uuid ∧
    (createEntry plainVault strayInput 9).1.id = 9 :=
  have h := createEntry_unknown_group_defaults_to_root plainVault strayInput 9 42 rfl rfl
  ⟨rfl, rfl, h.1.1, h.1.2.1⟩

/- ### Password generator (`src/lib/password-generator.ts` 1-44)

`crypto.getRandomValues` fills a `Uint32Array`; the embedding abstracts it as a
function `rnd : Nat → Nat` giving the i-th random word.  Character sets are
`List Char`. -/

def UPPERCASE : List Char := "ABCDEFGHIJKLMNOPQRSTUVWXYZ".data

def LOWERCASE : List Char := "abcdefghijklmnopqrstuvwxyz".data

def DIGITS : List Char := "0123456789".data

/-- The special-character class. The source string contains the brace
characters, code points 123 and 125. -/
def SPECIAL : List Char :=
  "!@#$%^&*()_+-=[]".data ++ [Char.ofNat 123, Char.ofNat 125] ++ "|;:,.<>?".data

def AMBIGUOUS : List Char := "O0l1I".data

/-- `GeneratorOptions` (`src/lib/types.ts` 37-44). -/
structure GeneratorOptions where
  length : Nat
  uppercase : Bool
  lowercase : Bool
  digits : Bool
  special : Bool
  excludeAmbiguous : Bool

/-- `DEFAULT_GENERATOR_OPTIONS` (`src/lib/constants.ts` 20-27). -/
def DEFAULT_GENERATOR_OPTIONS : GeneratorOptions :=
  { length := 20, uppercase := true, lowercase := true, digits := true,
    special := true, excludeAmbiguous := false }

/-- `Partial<GeneratorOptions>`: each field optionally overridden. -/
structure PartialGeneratorOptions where
  length : Option Nat := none
  uppercase : Option Bool := none
  lowercase : Option Bool := none
  digits : Option Bool := none
  special : Option Bool := none
  excludeAmbiguous : Option Bool := none

/-- The spread merge `{ ...DEFAULT_GENERATOR_OPTIONS, ...options }`. -/
def mergeOptions (options : PartialGeneratorOptions) : GeneratorOptions :=
  { length := options.length.getD DEFAULT_GENERATOR_OPTIONS.length,
    uppercase := options.uppercase.getD DEFAULT_GENERATOR_OPTIONS.uppercase,
    lowercase := options.lowercase.getD DEFAULT_GENERATOR_OPTIONS.lowercase,
    digits := options.digits.getD DEFAULT_GENERATOR_OPTIONS.digits,
    special := options.special.getD DEFAULT_GENERATOR_OPTIONS.special,
    excludeAmbiguous :=
      options.excludeAmbiguous.getD DEFAULT_GENERATOR_OPTIONS.excludeAmbiguous }

/-- The charset construction of `generatePassword` (password-generator.ts
18-33): concatenate the enabled classes, strip the ambiguous characters when
requested, and fall back to lowercase+digits when the result is empty. -/
def buildCharset (o : GeneratorOptions) : List Char :=
  let cs :=
    (if o.uppercase then UPPERCASE else []) ++
    (if o.lowercase then LOWERCASE else []) ++
    (if o.digits then DIGITS else []) ++
    (if o.special then SPECIAL else [])
  let cs := if o.excludeAmbiguous then cs.filter (fun c => !AMBIGUOUS.contains c) else cs
  if cs.length = 0 then LOWERCASE ++ DIGITS else cs

/-- `generatePassword` (password-generator.ts 13-44): the i-th character is
`charset[rnd i % charset.length]`. -/
def generatePassword (options : PartialGeneratorOptions) (rnd : Nat → Nat) :
    List Char :=
  let opts := mergeOptions options
  let charset := buildCharset opts
  (List.range opts.length).map (fun i => charset.getD (rnd i % charset.length) ' ')

/-- The alphabet as the claim words it: the union of the enabled character
classes, minus the ambiguous set `O 0 l 1 I` whenever `excludeAmbiguous` is
set, with a fallback to lowercase+digits when all class flags are false. -/
def claimAlphabet (o : GeneratorOptions) : List Char :=
  if !o.uppercase && !o.lowercase && !o.digits && !o.special then
    LOWERCASE ++ DIGITS
  else
    let union :=
      (if o.uppercase then UPPERCASE else []) ++
      (if o.lowercase then LOWERCASE else []) ++
      (if o.digits then DIGITS else []) ++
      (if o.special then SPECIAL else [])
    if o.excludeAmbiguous then union.filter (fun c => !AMBIGUOUS.contains c) else union

/-- The charset the code builds coincides with the alphabet the claim
describes, for every combination of the five class flags. -/
theorem buildCharset_eq_claimAlphabet (o : GeneratorOptions) :
    buildCharset o = claimAlphabet o := by
  obtain ⟨len, u, l, d, s, a⟩ := o
  cases u <;> cases l <;> cases d <;> cases s <;> cases a <;> rfl

/-- The built charset is never empty. -/
theorem buildCharset_ne_nil (o : GeneratorOptions) : buildCharset o ≠ [] := by
  obtain ⟨len, u, l, d, s, a⟩ := o
  cases u <;> cases l <;> cases d <;> cases s <;> cases a <;> exact List.cons_ne_nil _ _

/-- **C8.** For every option set and every randomness stream, the generated
password has exactly the configured length and every character belongs to the
configured alphabet (union of the enabled classes, minus `O 0 l 1 I` when
`excludeAmbiguous` is set, lowercase+digits as the fallback when no class is
enabled). -/
theorem generatePassword_length_and_alphabet (options : PartialGeneratorOptions)
    (rnd : Nat → Nat) :
    (generatePassword options rnd).length = (mergeOptions options).length ∧
    ∀ c ∈ generatePassword options rnd, c ∈ claimAlphabet (mergeOptions options) := by
  constructor
  · simp [generatePassword]
  · intro c hc
    rw [← buildCharset_eq_claimAlphabet]
    simp only [generatePassword, List.mem_map, List.mem_range] at hc
    obtain ⟨i, _, hi⟩ := hc
    have hne := buildCharset_ne_nil (mergeOptions options)
    have hlt : rnd i % (buildCharset (mergeOptions options)).length <
        (buildCharset (mergeOptions options)).length :=
      Nat.mod_lt _ (List.length_pos.mpr hne)
    rw [← hi, List.getD_eq_getElem _ _ hlt]
    exact List.getElem_mem hlt

/-- No overrides: the caller passed no options, all defaults apply. -/
def noOverrides : PartialGeneratorOptions := {}

/-- A concrete randomness stream that always yields 0. -/
def rnd0 : Nat → Nat := fun _ => 0

/-- Witness for C8 at the default options and the all-zero randomness stream:
the password has the default length 20 and its first character `A` lies in the
configured alphabet. -/
theorem generatePassword_domain_witness :
    (generatePassword noOverrides rnd0).length = (mergeOptions noOverrides).length ∧
    'A' ∈ claimAlphabet (mergeOptions noOverrides) :=
  have h := generatePassword_length_and_alphabet noOverrides rnd0
  ⟨h.1, h.2 'A' (by decide)⟩

/- ### Session state and the auto-lock alarm (`src/entrypoints/background.ts`
181-189, `src/lib/kdbx.ts` 45-47, `src/lib/storage.ts` 106-112 and 183-189)

The mutable session state visible to the alarm listener: the decrypted vault
held in module memory (`currentDb`), the two `chrome.storage.session` keys
(plaintext `session_password` and the JSON `encrypted_unlock_token`), and the
system clipboard contents. -/

/-- `EncryptedUnlockToken` (`src/lib/storage-types.ts`). -/
structure EncryptedUnlockToken where
  token : String
  expiresAt : Nat
  createdAt : Nat
deriving DecidableEq

/-- The background session state. -/
structure BgState where
  currentDb : Option Kdbx
  sessionPassword : Option String
  unlockToken : Option EncryptedUnlockToken
  clipboard : String

def ALARM_AUTO_LOCK : String := "auto-lock"

def ALARM_CLIPBOARD_CLEAR : String := "clipboard-clear"

/-- `kdbx.closeDatabase()` (kdbx.ts 45-47): `currentDb = null`. -/
def closeDatabase (s : BgState) : BgState := { s with currentDb := none }

/-- `storage.clearSessionPassword()` (storage.ts 106-112). -/
def clearSessionPassword (s : BgState) : BgState := { s with sessionPassword := none }

/-- `storage.clearEncryptedUnlockToken()` (storage.ts 183-189). -/
def clearEncryptedUnlockToken (s : BgState) : BgState := { s with unlockToken := none }

/-- `clearClipboard()` (clipboard.ts 69-75): write the empty string. -/
def clearClipboard (s : BgState) : BgState := { s with clipboard := "" }

/-- The `browser.alarms.onAlarm` listener (background.ts 181-189): on the
auto-lock alarm it closes the database and clears the session password; on the
clipboard alarm it clears the clipboard. -/
def onAlarm (name : String) (s : BgState) : BgState :=
  let s := if name == ALARM_AUTO_LOCK then clearSessionPassword (closeDatabase s) else s
  if name == ALARM_CLIPBOARD_CLEAR then clearClipboard s else s

/-- A concrete unlocked session: vault open, plaintext passphrase and
auto-unlock token both present in session storage. -/
def unlockedSession : BgState :=
  { currentDb := some plainVault, sessionPassword := some "s3cret-pass",
    unlockToken := some { token := "s3cret-pass", expiresAt := 3600000, createdAt := 0 },
    clipboard := "" }

/-- **C2, counterexample.** When the auto-lock alarm fires on a concrete
unlocked session holding an auto-unlock token, the token is still present
afterwards: the handler does not clear the auto-unlock token, so not all three
of vault, token and session passphrase are cleared. -/
theorem onAlarm_auto_lock_keeps_token :
    (onAlarm ALARM_AUTO_LOCK unlockedSession).unlockToken =
      some { token := "s3cret-pass", expiresAt := 3600000, createdAt := 0 } ∧
    (onAlarm ALARM_AUTO_LOCK unlockedSession).unlockToken ≠ none := by
  constructor
  · rfl
  · decide

/-- **C2, amended.** When the auto-lock alarm fires, the decrypted vault and
the plaintext session passphrase are cleared, but the auto-unlock token in
session storage is left untouched (it only disappears through its own TTL
check on load). -/
theorem onAlarm_auto_lock_effect (s : BgState) :
    (onAlarm ALARM_AUTO_LOCK s).currentDb = none ∧
    (onAlarm ALARM_AUTO_LOCK s).sessionPassword = none ∧
    (onAlarm ALARM_AUTO_LOCK s).unlockToken = s.unlockToken := by
  refine ⟨rfl, rfl, rfl⟩

/- ### Journal startup recovery (`src/lib/crypto-setup.ts` 39-243)

The in-memory `pendingOperations` map (modelled as the list of its values in
insertion order) and the `state_journal` records.  Checksums are compared only
for equality; SHA-256 is modelled as an injective digest, i.e. the byte string
itself. -/

/-- Bytes of an ArrayBuffer. -/
abbrev Bytes := List Nat

/-- `calculateChecksum` (kdbx.ts persistent-storage part, 739-750): SHA-256 as
lowercase hex.  The claims only ever compare checksums of blobs for equality,
so the digest is modelled by the blob itself, which like an ideal hash is
injective. -/
def calculateChecksum (data : Bytes) : Bytes := data

/-- `IncompleteOperation` (`src/lib/storage-types.ts` 126-133). -/
structure IncompleteOperation where
  operationId : String
  type : String
  state : String
  attempts : Nat
  lastAttempt : Nat
  nextRetry : Nat
deriving DecidableEq

/-- A `state_journal` record (`src/lib/storage-types.ts` 111-124), restricted
to the fields the recovery claim mentions. -/
structure JournalRecord where
  id : String
  operation : String
  status : String
  databaseChecksum : Bytes
  resultChecksum : Bytes
deriving DecidableEq

/-- `OperationRecoveryReport` (`src/lib/storage-types.ts` 135-142). -/
structure OperationRecoveryReport where
  incompleteCount : Nat
  failedCount : Nat
  recoveredCount : Nat
  rolledBackCount : Nat
  pendingOperations : List IncompleteOperation
  timestamp : Nat
deriving DecidableEq

/-- The journal state: the in-memory pending map plus the persisted
`state_journal` store, together with the checksum of the current on-disk blob
(what the claim's promotion rule would compare against). -/
structure JournalState where
  pendingOperations : List IncompleteOperation
  journal : List JournalRecord
  diskChecksum : Bytes
deriving DecidableEq

def OPERATION_MAX_RETRIES : Nat := 3

/-- `recoverIncompleteOperations` (crypto-setup.ts 196-243): builds a report by
walking `pendingOperations`; an operation with `attempts ≥ 3` is only counted
into `failedCount`, any other into `recoveredCount`.  The function performs no
store writes at all (loading from and updating IndexedDB are TODO stubs in the
source), so the state is returned unchanged. -/
def recoverIncompleteOperations (now : Nat) (s : JournalState) :
    OperationRecoveryReport × JournalState :=
  let init : OperationRecoveryReport :=
    { incompleteCount := 0, failedCount := 0, recoveredCount := 0,
      rolledBackCount := 0, pendingOperations := [], timestamp := now }
  if s.pendingOperations.isEmpty then (init, s)
  else
    let report := s.pendingOperations.foldl (fun r op =>
      { r with
        incompleteCount := r.incompleteCount + 1,
        pendingOperations := r.pendingOperations ++ [op],
        failedCount :=
          if op.attempts ≥ OPERATION_MAX_RETRIES then r.failedCount + 1 else r.failedCount,
        recoveredCount :=
          if op.attempts ≥ OPERATION_MAX_RETRIES then r.recoveredCount
          else r.recoveredCount + 1 }) init
    (report, s)

/-- A journal state caught mid-crash: one `started` record whose
`resultChecksum` equals the current on-disk checksum (the write landed), and a
second `started` record with `attempts = 5` past the retry limit. -/
def crashedJournal : JournalState :=
  { pendingOperations :=
      [{ operationId := "op:1:a", type := "database_save", state := "pending",
         attempts := 0, lastAttempt := 1, nextRetry := 5001 },
       { operationId := "op:2:b", type := "database_save", state := "pending",
         attempts := 5, lastAttempt := 2, nextRetry := 5002 }],
    journal :=
      [{ id := "op:1:a", operation := "database_save", status := "started",
         databaseChecksum := [9], resultChecksum := [1, 2, 3] },
       { id := "op:2:b", operation := "database_save", status := "started",
         databaseChecksum := [9], resultChecksum := [7] }],
    diskChecksum := calculateChecksum [1, 2, 3] }

/-- **C3.** Startup recovery does not implement the claimed protocol: on
`crashedJournal` the first record's `resultChecksum` equals the on-disk
checksum yet it is not promoted to `completed`, the second has exhausted its
retries yet is not marked `rolled_back` (the report's `rolledBackCount` stays
0), and the whole journal state is returned unchanged — every record still has
status `started`. -/
theorem recoverIncompleteOperations_changes_nothing :
    ((recoverIncompleteOperations 9999 crashedJournal).2 = crashedJournal) ∧
    ((recoverIncompleteOperations 9999 crashedJournal).2.journal.map
        (fun r => r.status) = ["started", "started"]) ∧
    ((recoverIncompleteOperations 9999 crashedJournal).1.rolledBackCount = 0) ∧
    ((recoverIncompleteOperations 9999 crashedJournal).1.failedCount = 1) := by
  refine ⟨rfl, rfl, rfl, rfl⟩

/- ### Dual-store persistence (`src/lib/kdbx.ts` persistent-storage part,
lines 265-849)

The two stores become explicit state: `chrome.storage.local` holds the base64
text and the metadata record; IndexedDB holds `databases["db:current"]`, the
`database_versions` store (represented in ascending key order, which is the
order `getAll` on a store keyed by `version` returns) and `sync_status`.
Each browser call that the source guards with `try`/`catch` gets a boolean
oracle in `World`; `corruptLocal` optionally substitutes the value the local
store retains, exercising the read-back mismatch branch.  The `warnings`
string array of the result (pure log text) is not modelled; the `error` field
is modelled as the flag `hasError`. -/

/-- `DatabaseMeta` (`src/lib/types.ts` 24-28); the ISO timestamp is a `Nat`. -/
structure DatabaseMeta where
  name : String
  lastModified : Nat
  entryCount : Nat
deriving DecidableEq

/-- The `databases["db:current"]` record (`IDBDatabase` in storage-types). -/
structure IDBDatabaseRec where
  blob : Bytes
  checksum : Bytes
  timestamp : Nat
  version : Nat
  metadata : DatabaseMeta
  source : String
deriving DecidableEq

/-- A `database_versions` record (`IDBDatabaseVersion` in storage-types). -/
structure IDBDatabaseVersion where
  version : Nat
  blob : Bytes
  checksum : Bytes
  timestamp : Nat
  metadata : DatabaseMeta
  reason : String
deriving DecidableEq

/-- The `sync_status` record (`IDBSyncStatus` in storage-types). -/
structure IDBSyncStatus where
  lastSyncTime : Nat
  lastChecksum : Bytes
  integrityStatus : String
deriving DecidableEq

/-- The combined persistent state of both stores. -/
structure StoreState where
  localDb : Option (List Char)
  localMeta : Option DatabaseMeta
  dbCurrent : Option IDBDatabaseRec
  versions : List IDBDatabaseVersion
  syncStatus : Option IDBSyncStatus
deriving DecidableEq

/-- Failure oracles, one per browser call inside `persistDatabase`:
`idbAvailable` is `idbInstance !== null`; `getCurrentOk` the initial read of
`db:current`; `putCurrentOk`/`putVersionOk` the two IndexedDB puts;
`localSetOk`/`localGetOk` the `chrome.storage.local` write and verify read;
`corruptLocal` the value the local store actually retains when it differs from
what was written; `syncPutOk` the `sync_status` put; `pruneGetOk` the `getAll`
inside `pruneOldVersions`; `pruneDeletes` how many of its delete calls succeed
before one throws (`none` = all succeed). -/
structure World where
  idbAvailable : Bool
  getCurrentOk : Bool
  putCurrentOk : Bool
  putVersionOk : Bool
  localSetOk : Bool
  localGetOk : Bool
  corruptLocal : Option (List Char)
  syncPutOk : Bool
  pruneGetOk : Bool
  pruneDeletes : Option Nat
deriving DecidableEq

/-- `StorageSyncResult` (`src/lib/storage-types.ts` 11-19) without the
`warnings` log array; `hasError` models whether the `error` field was set. -/
structure StorageSyncResult where
  success : Bool
  primaryStored : Bool
  backupStored : Bool
  checksumMatch : Bool
  hasError : Bool
  syncTime : Nat
deriving DecidableEq

/-- `store.put` on `database_versions` (keyPath `version`): insert or replace
at the record's key, keeping the store's ascending key order. -/
def putVersion : List IDBDatabaseVersion → IDBDatabaseVersion → List IDBDatabaseVersion
  | [], r => [r]
  | x :: xs, r =>
      if r.version < x.version then r :: x :: xs
      else if r.version = x.version then r :: xs
      else x :: putVersion xs r

/-- One insertion step of `versions.sort((a, b) => a.version - b.version)`. -/
def insertByVersion (r : IDBDatabaseVersion) :
    List IDBDatabaseVersion → List IDBDatabaseVersion
  | [] => [r]
  | x :: xs =>
      if r.version ≤ x.version then r :: x :: xs else x :: insertByVersion r xs

/-- The stable ascending sort by `version` used by `pruneOldVersions`. -/
def sortByVersion (l : List IDBDatabaseVersion) : List IDBDatabaseVersion :=
  l.foldr insertByVersion []

/-- `pruneOldVersions` (kdbx.ts 654-673): when more than `maxVersions` records
exist, sort ascending by version and delete the first `length - maxVersions`
by key; a failing delete call (after `deletesOk` successes) aborts the loop
through the function's own catch. -/
def pruneOldVersions (maxVersions : Nat) (deletesOk : Option Nat)
    (l : List IDBDatabaseVersion) : List IDBDatabaseVersion :=
  if maxVersions < l.length then
    let sorted := sortByVersion l
    let k := l.length - maxVersions
    let kEff := min k (deletesOk.getD k)
    let doomed := (sorted.take kEff).map (fun r => r.version)
    l.filter (fun r => !(doomed.contains r.version))
  else l

/-- Step 1 of `persistDatabase` (kdbx.ts 436-462): the two IndexedDB puts;
`backupStored` is true only when both succeed, and a failure of the second
leaves the first in place. -/
def idbPhase (w : World) (now : Nat) (blob checksum : Bytes) (newVersion : Nat)
    (metadata : DatabaseMeta) (reason : String) (s : StoreState) :
    Bool × StoreState :=
  if w.putCurrentOk then
    let currentRec : IDBDatabaseRec :=
      { blob := blob, checksum := checksum, timestamp := now, version := newVersion,
        metadata := { metadata with lastModified := now }, source := reason }
    let s1 := { s with dbCurrent := some currentRec }
    if w.putVersionOk then
      let versionRec : IDBDatabaseVersion :=
        { version := newVersion, blob := blob, checksum := checksum,
          timestamp := now, metadata := metadata, reason := "current" }
      (true, { s1 with versions := putVersion s1.versions versionRec })
    else (false, s1)
  else (false, s)

/-- Step 2 of `persistDatabase` (kdbx.ts 464-487): write base64 text to
`chrome.storage.local`, read it back, require a truthy value (the empty string
is falsy), and compare its recomputed checksum. -/
def localPhase (w : World) (blob checksum : Bytes) (metadata : DatabaseMeta)
    (s : StoreState) : Bool × Bool × StoreState :=
  let base64 := arrayBufferToBase64 blob
  if w.localSetOk then
    let stored := w.corruptLocal.getD base64
    let s2 := { s with localDb := some stored, localMeta := some metadata }
    if w.localGetOk then
      if stored.isEmpty then (false, false, s2)
      else (true, calculateChecksum (base64ToArrayBuffer stored) == checksum, s2)
    else (false, false, s2)
  else (false, false, s)

/-- Step 3 of `persistDatabase` (kdbx.ts 489-503): update `sync_status`. -/
def syncPhase (w : World) (now : Nat) (checksum : Bytes) (checksumMatch : Bool)
    (s : StoreState) : StoreState :=
  if w.syncPutOk then
    let statusRec : IDBSyncStatus :=
      { lastSyncTime := now, lastChecksum := checksum,
        integrityStatus := if checksumMatch then "healthy" else "degraded" }
    { s with syncStatus := some statusRec }
  else s

/-- Step 4 of `persistDatabase` (kdbx.ts 505-511): prune, with its internal
catch swallowing a failing `getAll`. -/
def prunePhase (w : World) (s : StoreState) : StoreState :=
  if w.pruneGetOk then
    { s with versions := pruneOldVersions 5 w.pruneDeletes s.versions }
  else s

/-- The version stored at `databases["db:current"]`, 0 when absent: the
source's `current?.version ?? 0`. -/
def curVer (s : StoreState) : Nat :=
  match s.dbCurrent with
  | some c => c.version
  | none => 0

/-- `persistDatabase` (kdbx.ts 414-519).  The initial `getFromIndexedDB` on
`db:current` is outside every inner `try`: it throws when IndexedDB is not
initialized or the get fails, landing in the outer catch with all flags still
false.  Otherwise the new version is the current one plus one (0 when absent)
and the four steps run in order; the returned `success` is
`primaryStored && backupStored`. -/
def persistDatabase (w : World) (now : Nat) (blob : Bytes)
    (metadata : DatabaseMeta) (reason : String) (s : StoreState) :
    StorageSyncResult × StoreState :=
  let checksum := calculateChecksum blob
  if w.idbAvailable && w.getCurrentOk then
    let newVersion := curVer s + 1
    let r1 := idbPhase w now blob checksum newVersion metadata reason s
    let r2 := localPhase w blob checksum metadata r1.2
    let s3 := syncPhase w now checksum r2.2.1 r2.2.2
    let s4 := prunePhase w s3
    ({ success := r2.1 && r1.1, primaryStored := r2.1, backupStored := r1.1,
       checksumMatch := r2.2.1, hasError := false, syncTime := now }, s4)
  else
    ({ success := false, primaryStored := false, backupStored := false,
       checksumMatch := false, hasError := true, syncTime := now }, s)

/-- The largest version present in `database_versions` (0 when empty). -/
def maxVer (s : StoreState) : Nat :=
  s.versions.foldr (fun r m => max r.version m) 0

/-- Well-formedness of the versions store: records in strictly ascending key
order (as the keyed object store keeps them) and no version beyond the one at
`db:current`. -/
def VersionsWF (s : StoreState) : Prop :=
  s.versions.Pairwise (fun a b => a.version < b.version) ∧
  ∀ r ∈ s.versions, r.version ≤ curVer s

/-- **C4.** For every call, the result of `persistDatabase` reports
`success = primaryStored && backupStored`: success exactly when both the
primary (`chrome.storage.local`) and the secondary (IndexedDB) write
succeeded, any store failure yields `success = false` (the function always
returns a result, never propagates a throw), and the read-back
`checksumMatch` does not enter the success condition. -/
theorem persistDatabase_success_iff (w : World) (now : Nat) (blob : Bytes)
    (metadata : DatabaseMeta) (reason : String) (s : StoreState) :
    (persistDatabase w now blob metadata reason s).1.success =
      ((persistDatabase w now blob metadata reason s).1.primaryStored &&
       (persistDatabase w now blob metadata reason s).1.backupStored) := by
  unfold persistDatabase
  split <;> rfl

/-- Putting a record whose key exceeds every present key appends it. -/
theorem putVersion_append (l : List IDBDatabaseVersion) (r : IDBDatabaseVersion)
    (h : ∀ x ∈ l, x.version < r.version) : putVersion l r = l ++ [r] := by
  induction l with
  | nil => rfl
  | cons x xs ih =>
      have hx := h x (List.mem_cons_self x xs)
      simp only [putVersion]
      rw [if_neg (by omega), if_neg (by omega),
        ih (fun y hy => h y (List.mem_cons_of_mem x hy))]
      rfl

/-- Sorting an already strictly ascending list is the identity. -/
theorem sortByVersion_sorted_id (l : List IDBDatabaseVersion)
    (h : l.Pairwise (fun a b => a.version < b.version)) : sortByVersion l = l := by
  induction l with
  | nil => rfl
  | cons x xs ih =>
      have hx : ∀ y ∈ xs, x.version < y.version := (List.pairwise_cons.mp h).1
      have hxs := (List.pairwise_cons.mp h).2
      show insertByVersion x (sortByVersion xs) = x :: xs
      rw [ih hxs]
      cases xs with
      | nil => rfl
      | cons y ys =>
          have hle : x.version ≤ y.version := le_of_lt (hx y (by simp))
          simp only [insertByVersion, if_pos hle]

/-- Filtering out exactly the keys of a duplicate-free prefix leaves the rest. -/
theorem filter_remove_sorted_prefix (pre rest : List IDBDatabaseVersion)
    (h : ((pre ++ rest).map fun r => r.version).Nodup) :
    (pre ++ rest).filter
        (fun r => !((pre.map fun r => r.version).contains r.version)) = rest := by
  induction pre with
  | nil => simp
  | cons x pre ih =>
      have h2 : (x.version :: ((pre ++ rest).map fun r => r.version)).Nodup := by
        simp only [List.cons_append, List.map_cons] at h
        exact h
      have hx : x.version ∉ ((pre ++ rest).map fun r => r.version) :=
        (List.nodup_cons.mp h2).1
      have htail : ((pre ++ rest).map fun r => r.version).Nodup :=
        (List.nodup_cons.mp h2).2
      have hxv : ∀ r ∈ pre ++ rest, r.version ≠ x.version := by
        intro r hr heq
        exact hx (heq ▸ List.mem_map_of_mem (fun r => r.version) hr)
      simp only [List.cons_append, List.filter_cons, List.map_cons]
      have hpx : (!((x.version :: pre.map fun r => r.version).contains x.version)) = false := by
        simp
      rw [hpx]
      simp only [Bool.false_eq_true, if_false]
      have hcongr : ∀ r ∈ pre ++ rest,
          (!((x.version :: pre.map fun r => r.version).contains r.version)) =
          (!((pre.map fun r => r.version).contains r.version)) := by
        intro r hr
        simp [hxv r hr]
      rw [List.filter_congr hcongr, ih htail]

/-- On a strictly ascending list with all deletes succeeding, pruning drops
exactly the `length - maxVersions` smallest-version records. -/
theorem pruneOldVersions_sorted_drop (l : List IDBDatabaseVersion)
    (h : l.Pairwise (fun a b => a.version < b.version)) :
    pruneOldVersions 5 none l = l.drop (l.length - 5) := by
  have hnd : (l.map fun r => r.version).Nodup :=
    List.Pairwise.map _ (fun a b hab => Nat.ne_of_lt hab) h
  unfold pruneOldVersions
  by_cases hl : 5 < l.length
  · rw [if_pos hl, sortByVersion_sorted_id l h]
    simp only [Option.getD_none, min_self]
    have := filter_remove_sorted_prefix (l.take (l.length - 5)) (l.drop (l.length - 5))
      (by rw [List.take_append_drop]; exact hnd)
    rw [List.take_append_drop] at this
    exact this
  · rw [if_neg hl, Nat.sub_eq_zero_of_le (by omega), List.drop_zero]

/-- Pruning returns a sublist of the store. -/
theorem pruneOldVersions_sublist (m : Nat) (d : Option Nat)
    (l : List IDBDatabaseVersion) : (pruneOldVersions m d l).Sublist l := by
  unfold pruneOldVersions
  split
  · exact List.filter_sublist l
  · exact List.Sublist.refl l

/-- The record with the strictly largest version survives pruning. -/
theorem mem_pruneOldVersions_max (l : List IDBDatabaseVersion)
    (r : IDBDatabaseVersion) (d : Option Nat)
    (h : (l ++ [r]).Pairwise (fun a b => a.version < b.version)) :
    r ∈ pruneOldVersions 5 d (l ++ [r]) := by
  have hlt : ∀ x ∈ l, x.version < r.version := by
    intro x hx
    have := (List.pairwise_append.mp h).2.2
    exact this x hx r (by simp)
  unfold pruneOldVersions
  by_cases hl : 5 < (l ++ [r]).length
  · rw [if_pos hl]
    refine List.mem_filter.mpr ⟨by simp, ?_⟩
    rw [sortByVersion_sorted_id _ h]
    have hk : min ((l ++ [r]).length - 5) (d.getD ((l ++ [r]).length - 5)) ≤ l.length := by
      have h1 : (l ++ [r]).length - 5 ≤ l.length := by
        simp only [List.length_append, List.length_singleton]
        omega
      exact le_trans (min_le_left _ _) h1
    rw [List.take_append_of_le_length hk]
    have key : ∀ kk, r.version ∉ ((l.take kk).map fun x => x.version) := by
      intro kk hmem
      obtain ⟨x, hx, hxv⟩ := List.mem_map.mp hmem
      exact Nat.ne_of_lt (hlt x (List.mem_of_mem_take hx)) hxv
    simpa using key _
  · rw [if_neg hl]
    simp

/-- Every member's version bounds below the folded maximum. -/
theorem le_versions_max (l : List IDBDatabaseVersion) (r : IDBDatabaseVersion)
    (hr : r ∈ l) : r.version ≤ l.foldr (fun x m => max x.version m) 0 := by
  induction l with
  | nil => cases hr
  | cons x xs ih =>
      rcases List.mem_cons.mp hr with h | h
      · subst h; exact le_max_left _ _
      · exact le_trans (ih h) (le_max_right _ _)

/-- An upper bound on every member's version bounds the folded maximum. -/
theorem versions_max_le (l : List IDBDatabaseVersion) (M : Nat)
    (h : ∀ r ∈ l, r.version ≤ M) : l.foldr (fun x m => max x.version m) 0 ≤ M := by
  induction l with
  | nil => exact Nat.zero_le M
  | cons x xs ih =>
      exact max_le (h x (List.mem_cons_self x xs))
        (ih fun r hr => h r (List.mem_cons_of_mem x hr))

/-- The local-storage phase touches neither `db:current` nor the versions
store. -/
theorem localPhase_preserves (w : World) (blob checksum : Bytes)
    (metadata : DatabaseMeta) (s : StoreState) :
    ((localPhase w blob checksum metadata s).2.2.dbCurrent = s.dbCurrent) ∧
    ((localPhase w blob checksum metadata s).2.2.versions = s.versions) := by
  constructor
  all_goals
    unfold localPhase
    dsimp only
    repeat' split
    all_goals rfl

/-- The sync-status phase touches neither `db:current` nor the versions
store. -/
theorem syncPhase_preserves (w : World) (now : Nat) (checksum : Bytes)
    (checksumMatch : Bool) (s : StoreState) :
    ((syncPhase w now checksum checksumMatch s).dbCurrent = s.dbCurrent) ∧
    ((syncPhase w now checksum checksumMatch s).versions = s.versions) := by
  constructor
  all_goals
    unfold syncPhase
    dsimp only
    split
    all_goals rfl

/-- The prune phase leaves `db:current` unchanged. -/
theorem prunePhase_dbCurrent (w : World) (s : StoreState) :
    (prunePhase w s).dbCurrent = s.dbCurrent := by
  unfold prunePhase
  split <;> rfl

/-- The versions store after the prune phase. -/
theorem prunePhase_versions (w : World) (s : StoreState) :
    (prunePhase w s).versions =
      if w.pruneGetOk = true then pruneOldVersions 5 w.pruneDeletes s.versions
      else s.versions := by
  unfold prunePhase
  by_cases hpg : w.pruneGetOk = true
  · rw [if_pos hpg, if_pos hpg]
  · rw [if_neg hpg, if_neg hpg]

/-- When a call reports success, both IndexedDB puts happened: `db:current`
advances to `curVer s + 1` and the versions store receives the record with
that key before the prune phase runs. -/
theorem persist_success_step (w : World) (now : Nat) (blob : Bytes)
    (metadata : DatabaseMeta) (reason : String) (s : StoreState)
    (hs : (persistDatabase w now blob metadata reason s).1.success = true) :
    curVer (persistDatabase w now blob metadata reason s).2 = curVer s + 1 ∧
    (VersionsWF s →
      VersionsWF (persistDatabase w now blob metadata reason s).2 ∧
      maxVer (persistDatabase w now blob metadata reason s).2 = curVer s + 1) := by
  cases hg : (w.idbAvailable && w.getCurrentOk) with
  | false =>
      exfalso
      have : (persistDatabase w now blob metadata reason s).1.success = false := by
        unfold persistDatabase
        rw [hg]
        rfl
      rw [this] at hs
      exact Bool.false_ne_true hs
  | true =>
      cases hpc : w.putCurrentOk with
      | false =>
          exfalso
          have hback : (idbPhase w now blob (calculateChecksum blob) (curVer s + 1)
              metadata reason s).1 = false := by
            unfold idbPhase
            rw [hpc]
            rfl
          have : (persistDatabase w now blob metadata reason s).1.success = false := by
            unfold persistDatabase
            rw [hg]
            dsimp only
            rw [hback, Bool.and_false]
            rfl
          rw [this] at hs
          exact Bool.false_ne_true hs
      | true =>
          cases hpv : w.putVersionOk with
          | false =>
              exfalso
              have hback : (idbPhase w now blob (calculateChecksum blob) (curVer s + 1)
                  metadata reason s).1 = false := by
                unfold idbPhase
                rw [hpc, hpv]
                rfl
              have : (persistDatabase w now blob metadata reason s).1.success = false := by
                unfold persistDatabase
                rw [hg]
                dsimp only
                rw [hback, Bool.and_false]
                rfl
              rw [this] at hs
              exact Bool.false_ne_true hs
          | true =>
              -- both IndexedDB puts succeed; name the two records
              set ck := calculateChecksum blob with hck
              set nv := curVer s + 1 with hnv
              set cRec : IDBDatabaseRec :=
                { blob := blob, checksum := ck, timestamp := now, version := nv,
                  metadata := { metadata with lastModified := now },
                  source := reason } with hcRec
              set vRec : IDBDatabaseVersion :=
                { version := nv, blob := blob, checksum := ck, timestamp := now,
                  metadata := metadata, reason := "current" } with hvRec
              set sIdb : StoreState :=
                { s with dbCurrent := some cRec, versions := putVersion s.versions vRec }
                with hsIdb
              have hidb : idbPhase w now blob ck nv metadata reason s = (true, sIdb) := by
                rw [hsIdb, hcRec, hvRec, hck, hnv]
                unfold idbPhase
                rw [hpc, hpv]
                rfl
              have hstate : (persistDatabase w now blob metadata reason s).2 =
                  prunePhase w (syncPhase w now ck
                    (localPhase w blob ck metadata sIdb).2.1
                    (localPhase w blob ck metadata sIdb).2.2) := by
                unfold persistDatabase
                rw [hg]
                dsimp only
                rw [hidb]
                rfl
              -- db:current after all phases
              have hdbc : (persistDatabase w now blob metadata reason s).2.dbCurrent =
                  some cRec := by
                rw [hstate, prunePhase_dbCurrent, (syncPhase_preserves _ _ _ _ _).1,
                  (localPhase_preserves _ _ _ _ _).1]
              have hcur : curVer (persistDatabase w now blob metadata reason s).2 = nv := by
                unfold curVer
                rw [hdbc]
              refine ⟨hcur, ?_⟩
              intro hwf
              -- the versions store after all phases
              have hvers : (persistDatabase w now blob metadata reason s).2.versions =
                  if w.pruneGetOk = true then
                    pruneOldVersions 5 w.pruneDeletes (putVersion s.versions vRec)
                  else putVersion s.versions vRec := by
                rw [hstate, prunePhase_versions, (syncPhase_preserves _ _ _ _ _).2,
                  (localPhase_preserves _ _ _ _ _).2]
              have happ : putVersion s.versions vRec = s.versions ++ [vRec] :=
                putVersion_append _ _ (fun x hx =>
                  lt_of_le_of_lt (hwf.2 x hx) (Nat.lt_succ_self _))
              have hpair : (s.versions ++ [vRec]).Pairwise
                  (fun a b => a.version < b.version) := by
                refine List.pairwise_append.mpr ⟨hwf.1, List.pairwise_singleton _ _, ?_⟩
                intro a ha b hb
                rw [List.mem_singleton.mp hb]
                exact lt_of_le_of_lt (hwf.2 a ha) (Nat.lt_succ_self _)
              have hsub : (persistDatabase w now blob metadata reason s).2.versions.Sublist
                  (s.versions ++ [vRec]) := by
                rw [hvers, happ]
                by_cases hpg : w.pruneGetOk = true
                · rw [if_pos hpg]
                  exact pruneOldVersions_sublist _ _ _
                · rw [if_neg hpg]
              have hmem : vRec ∈ (persistDatabase w now blob metadata reason s).2.versions := by
                rw [hvers, happ]
                by_cases hpg : w.pruneGetOk = true
                · rw [if_pos hpg]
                  exact mem_pruneOldVersions_max _ _ _ hpair
                · rw [if_neg hpg]
                  simp
              have hbound : ∀ r ∈ (persistDatabase w now blob metadata reason s).2.versions,
                  r.version ≤ nv := by
                intro r hr
                have hr2 : r ∈ s.versions ++ [vRec] := hsub.subset hr
                rcases List.mem_append.mp hr2 with h | h
                · exact le_of_lt (lt_of_le_of_lt (hwf.2 r h) (Nat.lt_succ_self _))
                · rw [List.mem_singleton.mp h]
              constructor
              · refine ⟨List.Pairwise.sublist hsub hpair, ?_⟩
                intro r hr
                rw [hcur]
                exact hbound r hr
              · unfold maxVer
                refine le_antisymm (versions_max_le _ _ hbound) ?_
                exact le_versions_max _ vRec hmem

/-- One dispatcher-triggered persist call: its failure oracles and inputs. -/
structure PersistCall where
  w : World
  now : Nat
  blob : Bytes
  metadata : DatabaseMeta
  reason : String
deriving DecidableEq

/-- A sequence of persist calls threaded through the store state, collecting
the per-call results. -/
def persistSeq : List PersistCall → StoreState → List StorageSyncResult × StoreState
  | [], s => ([], s)
  | c :: cs, s =>
      let r := persistDatabase c.w c.now c.blob c.metadata c.reason s
      let rest := persistSeq cs r.2
      (r.1 :: rest.1, rest.2)

/-- The one-step unfolding of `persistSeq`. -/
theorem persistSeq_cons (c : PersistCall) (cs : List PersistCall) (s : StoreState) :
    persistSeq (c :: cs) s =
      ((persistDatabase c.w c.now c.blob c.metadata c.reason s).1 ::
        (persistSeq cs (persistDatabase c.w c.now c.blob c.metadata c.reason s).2).1,
       (persistSeq cs (persistDatabase c.w c.now c.blob c.metadata c.reason s).2).2) := rfl

/-- The versions store after the IndexedDB phase: the new record is inserted
exactly when both puts succeed. -/
theorem idbPhase_versions (w : World) (now : Nat) (blob checksum : Bytes)
    (newVersion : Nat) (metadata : DatabaseMeta) (reason : String) (s : StoreState) :
    (idbPhase w now blob checksum newVersion metadata reason s).2.versions =
      if w.putCurrentOk && w.putVersionOk then
        putVersion s.versions
          { version := newVersion, blob := blob, checksum := checksum,
            timestamp := now, metadata := metadata, reason := "current" }
      else s.versions := by
  cases hpc : w.putCurrentOk with
  | false => simp [idbPhase, hpc]
  | true =>
      cases hpv : w.putVersionOk with
      | false => simp [idbPhase, hpc, hpv]
      | true => simp [idbPhase, hpc, hpv]

/-- **C5.** Each persist call that succeeds assigns the new record version
`v + 1` where `v` is the version at `databases["db:current"]` (0 when absent),
so the current version is strictly increasing across successful calls; and
after `N` successful persist calls from a well-formed store, the maximum
`database_versions.version` equals `v₀ + N`. -/
theorem persist_version_monotonic :
    (∀ (w : World) (now : Nat) (blob : Bytes) (metadata : DatabaseMeta)
        (reason : String) (s : StoreState),
        (persistDatabase w now blob metadata reason s).1.success = true →
        curVer (persistDatabase w now blob metadata reason s).2 = curVer s + 1) ∧
    (∀ (calls : List PersistCall) (s0 : StoreState), VersionsWF s0 →
        (∀ r ∈ (persistSeq calls s0).1, r.success = true) →
        curVer (persistSeq calls s0).2 = curVer s0 + calls.length ∧
        (calls ≠ [] → maxVer (persistSeq calls s0).2 = curVer s0 + calls.length)) := by
  constructor
  · intro w now blob metadata reason s hs
    exact (persist_success_step w now blob metadata reason s hs).1
  · intro calls
    induction calls with
    | nil =>
        intro s0 hwf hall
        exact ⟨by simp [persistSeq], fun h => absurd rfl h⟩
    | cons c cs ih =>
        intro s0 hwf hall
        rw [persistSeq_cons] at hall
        have hhd : (persistDatabase c.w c.now c.blob c.metadata c.reason s0).1.success
            = true := hall _ (List.mem_cons_self _ _)
        have hstep := persist_success_step c.w c.now c.blob c.metadata c.reason s0 hhd
        have hcur1 := hstep.1
        have hwf1 := (hstep.2 hwf).1
        have hmax1 := (hstep.2 hwf).2
        have htl : ∀ r ∈ (persistSeq cs
            (persistDatabase c.w c.now c.blob c.metadata c.reason s0).2).1,
            r.success = true := fun r hr => hall r (List.mem_cons_of_mem _ hr)
        have ihr := ih _ hwf1 htl
        rw [persistSeq_cons]
        refine ⟨?_, fun _ => ?_⟩
        · dsimp only
          rw [ihr.1, hcur1]
          simp only [List.length_cons]
          omega
        · dsimp only
          cases cs with
          | nil =>
              simpa [persistSeq] using hmax1
          | cons d ds =>
              rw [ihr.2 (by simp), hcur1]
              simp only [List.length_cons]
              omega

/-- **C6.** After any persist call in which the pruning step's IndexedDB
operations succeed, the well-formed `database_versions` store holds at most 5
records; and pruning on an ascending store deletes the records with the
smallest versions first — it keeps exactly the trailing
`min (length) 5` records (`drop (length - 5)`), so when more than 5 were
present exactly 5 remain. -/
theorem persist_version_retention (w : World) (now : Nat) (blob : Bytes)
    (metadata : DatabaseMeta) (reason : String) (s : StoreState)
    (hwf : VersionsWF s) (hlen : s.versions.length ≤ 5)
    (hget : w.pruneGetOk = true) (hdel : w.pruneDeletes = none) :
    (persistDatabase w now blob metadata reason s).2.versions.length ≤ 5 ∧
    ∀ l : List IDBDatabaseVersion,
      l.Pairwise (fun a b => a.version < b.version) →
      pruneOldVersions 5 none l = l.drop (l.length - 5) := by
  refine ⟨?_, fun l hl => pruneOldVersions_sorted_drop l hl⟩
  cases hg : (w.idbAvailable && w.getCurrentOk) with
  | false =>
      have hfix : (persistDatabase w now blob metadata reason s).2 = s := by
        unfold persistDatabase
        rw [hg]
        rfl
      rw [hfix]
      exact hlen
  | true =>
      have hps : (persistDatabase w now blob metadata reason s).2 =
          prunePhase w (syncPhase w now (calculateChecksum blob)
            (localPhase w blob (calculateChecksum blob) metadata
              (idbPhase w now blob (calculateChecksum blob) (curVer s + 1)
                metadata reason s).2).2.1
            (localPhase w blob (calculateChecksum blob) metadata
              (idbPhase w now blob (calculateChecksum blob) (curVer s + 1)
                metadata reason s).2).2.2) := by
        unfold persistDatabase
        rw [hg]
        rfl
      have hvers : (persistDatabase w now blob metadata reason s).2.versions =
          pruneOldVersions 5 w.pruneDeletes
            ((idbPhase w now blob (calculateChecksum blob) (curVer s + 1)
              metadata reason s).2.versions) := by
        rw [hps, prunePhase_versions, if_pos hget, (syncPhase_preserves _ _ _ _ _).2,
          (localPhase_preserves _ _ _ _ _).2]
      rw [hvers, hdel, idbPhase_versions]
      by_cases hboth : (w.putCurrentOk && w.putVersionOk) = true
      · rw [if_pos hboth]
        have happ : putVersion s.versions
            ({ version := curVer s + 1, blob := blob,
               checksum := calculateChecksum blob, timestamp := now,
               metadata := metadata, reason := "current" } : IDBDatabaseVersion) =
            s.versions ++
              [({ version := curVer s + 1, blob := blob,
                  checksum := calculateChecksum blob, timestamp := now,
                  metadata := metadata, reason := "current" } : IDBDatabaseVersion)] :=
          putVersion_append _ _ (fun x hx =>
            lt_of_le_of_lt (hwf.2 x hx) (Nat.lt_succ_self _))
        have hpair : (s.versions ++
            [({ version := curVer s + 1, blob := blob,
                checksum := calculateChecksum blob, timestamp := now,
                metadata := metadata, reason := "current" } : IDBDatabaseVersion)]).Pairwise
            (fun a b => a.version < b.version) := by
          refine List.pairwise_append.mpr ⟨hwf.1, List.pairwise_singleton _ _, ?_⟩
          intro a ha b hb
          rw [List.mem_singleton.mp hb]
          exact lt_of_le_of_lt (hwf.2 a ha) (Nat.lt_succ_self _)
        rw [happ, pruneOldVersions_sorted_drop _ hpair, List.length_drop]
        omega
      · rw [if_neg hboth]
        rw [pruneOldVersions_sorted_drop _ hwf.1, List.length_drop]
        omega

/-- The empty initial store: nothing persisted yet. -/
def emptyStore : StoreState :=
  { localDb := none, localMeta := none, dbCurrent := none, versions := [],
    syncStatus := none }

/-- A world in which every browser call succeeds and nothing corrupts. -/
def allOk : World :=
  { idbAvailable := true, getCurrentOk := true, putCurrentOk := true,
    putVersionOk := true, localSetOk := true, localGetOk := true,
    corruptLocal := none, syncPutOk := true, pruneGetOk := true,
    pruneDeletes := none }

def meta0 : DatabaseMeta :=
  { name := "My Work Passwords", lastModified := 0, entryCount := 0 }

def editCall1 : PersistCall :=
  { w := allOk, now := 1, blob := [1], metadata := meta0, reason := "edit" }

def editCall2 : PersistCall :=
  { w := allOk, now := 2, blob := [2], metadata := meta0, reason := "edit" }

/-- Witness for C5: two concrete all-succeeding persist calls from the empty
store; the current version and the maximum stored version both end at 2. -/
theorem persist_version_monotonic_witness :
    VersionsWF emptyStore ∧
    (∀ r ∈ (persistSeq [editCall1, editCall2] emptyStore).1, r.success = true) ∧
    curVer (persistSeq [editCall1, editCall2] emptyStore).2 = curVer emptyStore + 2 ∧
    maxVer (persistSeq [editCall1, editCall2] emptyStore).2 = curVer emptyStore + 2 := by
  have hwf : VersionsWF emptyStore := ⟨List.Pairwise.nil, by intro r hr; cases hr⟩
  have hall : ∀ r ∈ (persistSeq [editCall1, editCall2] emptyStore).1,
      r.success = true := by decide
  have h := persist_version_monotonic.2 [editCall1, editCall2] emptyStore hwf hall
  exact ⟨hwf, hall, h.1, h.2 (by decide)⟩

/-- Witness for C6: one concrete all-succeeding persist call from the empty
store keeps the versions store within the retention bound. -/
theorem persist_version_retention_witness :
    VersionsWF emptyStore ∧ emptyStore.versions.length ≤ 5 ∧
    allOk.pruneGetOk = true ∧ allOk.pruneDeletes = none ∧
    (persistDatabase allOk 1 [1] meta0 "edit" emptyStore).2.versions.length ≤ 5 := by
  have hwf : VersionsWF emptyStore := ⟨List.Pairwise.nil, by intro r hr; cases hr⟩
  exact ⟨hwf, by decide, rfl, rfl,
    (persist_version_retention allOk 1 [1] meta0 "edit" emptyStore hwf
      (by decide) rfl rfl).1⟩

/- ### Backup system (`src/lib/backup-system.ts`, `src/entrypoints/background.ts`
148-177)

The edit counter, the last-snapshot time and the `backup_snapshots` store. -/

/-- An `IDBBackupSnapshot` record (`src/lib/storage-types.ts` 187-196). -/
structure BackupSnapshot where
  timestamp : Nat
  version : Nat
  reason : String
  blob : Bytes
  checksum : Bytes
  metadata : DatabaseMeta
  editCount : Nat
  autoSnapshot : Bool
deriving DecidableEq

/-- A `BackupEntry` history row (`src/lib/storage-types.ts` 55-62), restricted
to the fields `GET_BACKUP_HISTORY` forwards. -/
structure BackupEntry where
  timestamp : Nat
  version : Nat
  reason : String
  size : Nat
deriving DecidableEq

/-- The backup system's observable state (backup-system.ts 20-24 plus the
`backup_snapshots` object store). -/
structure BackupState where
  editCounter : Nat
  lastSnapshotTime : Nat
  snapshots : List BackupSnapshot
deriving DecidableEq

def EDIT_THRESHOLD : Nat := 10

/-- `recordEdit` (backup-system.ts 96-98). -/
def recordEdit (b : BackupState) : BackupState :=
  { b with editCounter := b.editCounter + 1 }

/-- `shouldCreateEditThresholdSnapshot` (backup-system.ts 112-114). -/
def shouldCreateEditThresholdSnapshot (b : BackupState) : Bool :=
  EDIT_THRESHOLD ≤ b.editCounter

/-- `createSnapshot` (backup-system.ts 53-90).  The snapshot object literal at
line 70 references `editCount`, an identifier that is not in scope (the module
variable is `editCounter`), so constructing it throws a ReferenceError which
the function's own catch swallows before the counter reset and the
`lastSnapshotTime` update are reached; and even aside from that slip the
function only logs — storing into `backup_snapshots` is left as a comment.
The observable state is therefore unchanged. -/
def createSnapshot (_blob : Bytes) (_metadata : DatabaseMeta) (_reason : String)
    (b : BackupState) : BackupState := b

/-- `getBackupHistory` via `getBackupHistoryInternal` (backup-system.ts
150-159): the IndexedDB query is a TODO stub and the empty list is returned
for every limit and every state. -/
def getBackupHistory (_limit : Nat) (_b : BackupState) : List BackupEntry := []

/-- The backup part of the background `persistDatabase` helper
(background.ts 155-161): record the edit, then create an `edit_threshold`
snapshot when the counter has reached the threshold. -/
def bgPersistBackupPhase (blob : Bytes) (metadata : DatabaseMeta)
    (b : BackupState) : BackupState :=
  let b1 := recordEdit b
  if shouldCreateEditThresholdSnapshot b1 then
    createSnapshot blob metadata "edit_threshold" b1
  else b1

/-- The backup state at service-worker start. -/
def initialBackupState : BackupState :=
  { editCounter := 0, lastSnapshotTime := 0, snapshots := [] }

/-- **C7.** The edit-threshold snapshot never becomes visible: the backup
history is the empty list for every limit and state, and concretely after ten
successful edit persists from the initial state no snapshot exists in the
store, no history row with reason `edit_threshold` can be returned, and the
counter was not reset (it stands at 10, not 0). -/
theorem backup_history_shows_no_threshold_snapshot :
    (∀ (limit : Nat) (b : BackupState), getBackupHistory limit b = []) ∧
    (getBackupHistory 10
        ((fun b => bgPersistBackupPhase [1] meta0 b)^[10] initialBackupState) = [] ∧
     ((fun b => bgPersistBackupPhase [1] meta0 b)^[10] initialBackupState).snapshots
        = [] ∧
     ((fun b => bgPersistBackupPhase [1] meta0 b)^[10] initialBackupState).editCounter
        = 10) := by
  refine ⟨fun _ _ => rfl, rfl, by decide, by decide⟩

end KeePassExt
